import Mathlib

/-!
Verification development for the `integrator_junkbox` repository.

The repository contains several draft backends that compute the definite
integral of the fixed polynomial `f(x) = a*x^4 + b*x^3 + c*x^2 + d*x + e`:

* floating-point reference backends (exact antiderivative evaluation and a
  composite trapezoidal rule), modelled here over `ℚ` (the exact real
  semantics of the arithmetic the code performs);
* fixed-width unsigned-integer backends built on a shift-and-add
  "NLFSR" multiplication routine, in two variants: one accumulating with
  bitwise XOR and combining terms with XOR, one accumulating with
  arithmetic addition and combining terms with addition/subtraction.

The unsigned 32-bit machine arithmetic is embedded over `Nat` with an
explicit modulus `M32 = 2^32` wherever the C code can wrap.
-/

/-- The modulus of the 32-bit unsigned integer type used throughout the
integer backends (`uint32_t`). -/
def M32 : Nat := 4294967296

namespace Part001

/-- Loop body of the corrected `multiplyNLFSR` (src/unnamed/part_001,
lines 224-240; identical text in src/crooked3.md, lines 21-37):

```
while (multiplier > 0) {
  if (multiplier & 1) { result += current; }
  current <<= 1;
  multiplier >>= 1;
}
```

`result`, `current` are `uint32_t`, so the addition and the left shift are
taken modulo `2^32`.  The loop runs at most `bitlength multiplier`
iterations; the first argument is structural fuel, instantiated with
`multiplier` itself (an upper bound on the bit length), so the function
computes exactly what the loop computes for every input. -/
def mulAddGo : Nat → Nat → Nat → Nat → Nat
  | 0, result, _, _ => result
  | fuel + 1, result, current, multiplier =>
    if multiplier = 0 then result
    else
      mulAddGo fuel
        (if multiplier % 2 = 1 then (result + current) % M32 else result)
        (current * 2 % M32) (multiplier / 2)

/-- `multiplyNLFSR` of src/unnamed/part_001 lines 224-240 (the addition-based
shift-and-add multiplier, also given in src/crooked3.md): `result = 0`,
`current = value`, then the while loop above. -/
def multiplyNLFSR (value multiplier : Nat) : Nat :=
  mulAddGo multiplier 0 value multiplier

lemma mulAddGo_zero_mult (fuel result current : Nat) :
    mulAddGo fuel result current 0 = result := by
  cases fuel <;> simp [mulAddGo]

lemma mulAddGo_lt (fuel : Nat) :
    ∀ result current multiplier : Nat, result < M32 →
      mulAddGo fuel result current multiplier < M32 := by
  induction fuel with
  | zero => intro result current multiplier h; simpa [mulAddGo] using h
  | succ fuel ih =>
    intro result current multiplier h
    by_cases hm : multiplier = 0
    · simpa [mulAddGo, hm] using h
    · simp only [mulAddGo, hm, if_false]
      apply ih
      by_cases hb : multiplier % 2 = 1
      · simp only [hb, if_true]
        exact Nat.mod_lt _ (by norm_num [M32])
      · simpa [hb] using h

lemma mulAddGo_modeq (fuel : Nat) :
    ∀ result current multiplier : Nat, multiplier ≤ fuel →
      mulAddGo fuel result current multiplier ≡
        result + current * multiplier [MOD M32] := by
  induction fuel with
  | zero =>
    intro result current multiplier h
    interval_cases multiplier
    simp [mulAddGo_zero_mult, Nat.ModEq.refl]
  | succ fuel ih =>
    intro result current multiplier h
    by_cases hm : multiplier = 0
    · subst hm; simp [mulAddGo_zero_mult, Nat.ModEq.refl]
    · simp only [mulAddGo, hm, if_false]
      have hle : multiplier / 2 ≤ fuel := by omega
      have hsplit : 2 * (multiplier / 2) + multiplier % 2 = multiplier :=
        Nat.div_add_mod multiplier 2
      by_cases hb : multiplier % 2 = 1
      · simp only [hb, if_true]
        have h1 := ih ((result + current) % M32) (current * 2 % M32)
          (multiplier / 2) hle
        have h2 : (result + current) % M32 + current * 2 % M32 * (multiplier / 2) ≡
            result + current * multiplier [MOD M32] := by
          calc (result + current) % M32 + current * 2 % M32 * (multiplier / 2)
              ≡ (result + current) + current * 2 * (multiplier / 2) [MOD M32] :=
                Nat.ModEq.add (Nat.mod_modEq _ _)
                  (Nat.ModEq.mul (Nat.mod_modEq _ _) (Nat.ModEq.refl _))
            _ = result + current * (2 * (multiplier / 2) + 1) := by ring
            _ = result + current * multiplier := by rw [hb] at hsplit; rw [hsplit]
        exact h1.trans h2
      · have hb0 : multiplier % 2 = 0 := by omega
        simp only [hb, if_false]
        have h1 := ih result (current * 2 % M32) (multiplier / 2) hle
        have h2 : result + current * 2 % M32 * (multiplier / 2) ≡
            result + current * multiplier [MOD M32] := by
          calc result + current * 2 % M32 * (multiplier / 2)
              ≡ result + current * 2 * (multiplier / 2) [MOD M32] :=
                Nat.ModEq.add (Nat.ModEq.refl _)
                  (Nat.ModEq.mul (Nat.mod_modEq _ _) (Nat.ModEq.refl _))
            _ = result + current * (2 * (multiplier / 2) + 0) := by ring
            _ = result + current * multiplier := by rw [hb0] at hsplit; rw [hsplit]
        exact h1.trans h2

/-- Shift-and-add multiplication with arithmetic accumulation is exact
whenever the true product fits in 32 bits. -/
lemma multiplyNLFSR_eq (p q : Nat) (hpq : p * q < M32) :
    multiplyNLFSR p q = p * q := by
  have hlt : multiplyNLFSR p q < M32 :=
    mulAddGo_lt q 0 p q (by norm_num [M32])
  have hmod : multiplyNLFSR p q ≡ 0 + p * q [MOD M32] :=
    mulAddGo_modeq q 0 p q le_rfl
  have heq : multiplyNLFSR p q % M32 = (0 + p * q) % M32 := hmod
  rw [Nat.mod_eq_of_lt hlt, Nat.zero_add, Nat.mod_eq_of_lt hpq] at heq
  exact heq

lemma multiplyNLFSR_lt (value multiplier : Nat) :
    multiplyNLFSR value multiplier < M32 :=
  mulAddGo_lt multiplier 0 value multiplier (by norm_num [M32])

/-- `evaluatePolynomial` of src/unnamed/part_001 lines 243-253: each power of
`x` built by repeated `multiplyNLFSR` calls, terms summed with `+` on
`uint32_t` (left-associated, each intermediate sum reduced mod `2^32`). -/
def evaluatePolynomial (a b c d e x : Nat) : Nat :=
  ((((multiplyNLFSR a (multiplyNLFSR x (multiplyNLFSR x (multiplyNLFSR x x))) +
        multiplyNLFSR b (multiplyNLFSR x (multiplyNLFSR x (multiplyNLFSR x 1)))) % M32 +
      multiplyNLFSR c (multiplyNLFSR x (multiplyNLFSR x 1))) % M32 +
    multiplyNLFSR d x) % M32 + e) % M32

/-- The per-term scaling step of `evaluateAntiderivative`
(src/unnamed/part_001 lines 258-261): multiply the coefficient by the
power value with `multiplyNLFSR`, then divide by the divisor with the
truncating unsigned integer division of `uint32_t`.  The code reports no
condition when the division discards a nonzero remainder. -/
def scaleExact (coefficient divisor power : Nat) : Nat :=
  multiplyNLFSR coefficient power / divisor

/-- `evaluateAntiderivative` of src/unnamed/part_001 lines 256-266:
`(multiplyNLFSR(a, x^5))/5 + (multiplyNLFSR(b, x^4))/4 +
(multiplyNLFSR(c, x^3))/3 + (multiplyNLFSR(d, x^2))/2 + multiplyNLFSR(e, x)`,
powers built by nested `multiplyNLFSR` calls, sums on `uint32_t`. -/
def evaluateAntiderivative (a b c d e x : Nat) : Nat :=
  ((((scaleExact a 5
        (multiplyNLFSR x (multiplyNLFSR x (multiplyNLFSR x (multiplyNLFSR x (multiplyNLFSR x 1))))) +
      scaleExact b 4
        (multiplyNLFSR x (multiplyNLFSR x (multiplyNLFSR x (multiplyNLFSR x 1))))) % M32 +
      scaleExact c 3 (multiplyNLFSR x (multiplyNLFSR x (multiplyNLFSR x 1)))) % M32 +
    scaleExact d 2 (multiplyNLFSR x (multiplyNLFSR x 1))) % M32 +
    multiplyNLFSR e x) % M32

/-- `integratePolynomial` of src/unnamed/part_001 lines 269-276:
`return F_x_end - F_x_start;` on `uint32_t`, i.e. subtraction modulo
`2^32` (for unsigned operands below `2^32` this is
`(2^32 + F_x_end - F_x_start) % 2^32`). -/
def integratePolynomial (a b c d e xStart xEnd : Nat) : Nat :=
  (M32 + evaluateAntiderivative a b c d e xEnd -
      evaluateAntiderivative a b c d e xStart) % M32

lemma evaluateAntiderivative_lt (a b c d e x : Nat) :
    evaluateAntiderivative a b c d e x < M32 :=
  Nat.mod_lt _ (by norm_num [M32])

end Part001

/-- C4: for every `x` and coefficients such that no intermediate term or
sum overflows the 32-bit unsigned type, the Add-combinator polynomial
evaluation returns exactly `a*x^4 + b*x^3 + c*x^2 + d*x + e`. -/
theorem C4_evaluatePolynomial_exact (a b c d e x : Nat)
    (hx : x ^ 4 < M32)
    (hS : a * x ^ 4 + b * x ^ 3 + c * x ^ 2 + d * x + e < M32) :
    Part001.evaluatePolynomial a b c d e x =
      a * x ^ 4 + b * x ^ 3 + c * x ^ 2 + d * x + e := by
  have hx256 : x < 256 := by
    by_contra hge
    push_neg at hge
    have : (256 : Nat) ^ 4 ≤ x ^ 4 := Nat.pow_le_pow_left hge 4
    norm_num [M32] at this hx
    omega
  have h255 : x ≤ 255 := by omega
  have hxx2 : x * x ≤ 65025 := by
    calc x * x ≤ 255 * 255 := Nat.mul_le_mul h255 h255
      _ = 65025 := by norm_num
  have hxx3 : x * (x * x) ≤ 16581375 := by
    calc x * (x * x) ≤ 255 * 65025 := Nat.mul_le_mul h255 hxx2
      _ = 16581375 := by norm_num
  have hxx : x * x < M32 := lt_of_le_of_lt hxx2 (by norm_num [M32])
  have hx3 : x * (x * x) < M32 := lt_of_le_of_lt hxx3 (by norm_num [M32])
  have hx4 : x * (x * (x * x)) < M32 := by
    have h : x * (x * (x * x)) = x ^ 4 := by ring
    rw [h]; exact hx
  have hxM : x < M32 := lt_of_le_of_lt h255 (by norm_num [M32])
  have ha4 : a * (x * (x * (x * x))) < M32 := by
    have h : a * (x * (x * (x * x))) = a * x ^ 4 := by ring
    rw [h]; omega
  have hb3 : b * (x * (x * x)) < M32 := by
    have h : b * (x * (x * x)) = b * x ^ 3 := by ring
    rw [h]; omega
  have hc2 : c * (x * x) < M32 := by
    have h : c * (x * x) = c * x ^ 2 := by ring
    rw [h]; omega
  have hd1 : d * x < M32 := by omega
  unfold Part001.evaluatePolynomial
  rw [Part001.multiplyNLFSR_eq x 1 (by omega), Nat.mul_one x,
    Part001.multiplyNLFSR_eq x x hxx,
    Part001.multiplyNLFSR_eq x (x * x) hx3,
    Part001.multiplyNLFSR_eq x (x * (x * x)) hx4,
    Part001.multiplyNLFSR_eq a _ ha4,
    Part001.multiplyNLFSR_eq b _ hb3,
    Part001.multiplyNLFSR_eq c _ hc2,
    Part001.multiplyNLFSR_eq d x hd1]
  have e4 : a * (x * (x * (x * x))) = a * x ^ 4 := by ring
  have e3 : b * (x * (x * x)) = b * x ^ 3 := by ring
  have e2 : c * (x * x) = c * x ^ 2 := by ring
  rw [e4, e3, e2]
  simp only [M32] at hS ⊢
  omega

/-- Witness for C4 at `a..e = 1,2,3,4,5`, `x = 2`. -/
theorem C4_evaluatePolynomial_exact_witness :
    (2 : Nat) ^ 4 < M32 ∧
      1 * 2 ^ 4 + 2 * 2 ^ 3 + 3 * 2 ^ 2 + 4 * 2 + 5 < M32 ∧
      Part001.evaluatePolynomial 1 2 3 4 5 2 =
        1 * 2 ^ 4 + 2 * 2 ^ 3 + 3 * 2 ^ 2 + 4 * 2 + 5 :=
  ⟨by decide, by decide,
    C4_evaluatePolynomial_exact 1 2 3 4 5 2 (by decide) (by decide)⟩

/-- C1: the shift-and-add multiplier that accumulates with arithmetic
addition returns exactly `p * q` whenever the true product fits in the
32-bit unsigned type, and in particular `multiply(x, 0) = 0` and
`multiply(x, 1) = x` for every 32-bit `x`. -/
theorem C1_multiplyNLFSR_exact (p q x : Nat) (hpq : p * q < M32) (hx : x < M32) :
    Part001.multiplyNLFSR p q = p * q ∧
      Part001.multiplyNLFSR x 0 = 0 ∧ Part001.multiplyNLFSR x 1 = x := by
  refine ⟨Part001.multiplyNLFSR_eq p q hpq, rfl, ?_⟩
  have := Part001.multiplyNLFSR_eq x 1 (by omega)
  simpa using this

/-- Witness for C1 at `p = 123`, `q = 456`, `x = 789`. -/
theorem C1_multiplyNLFSR_exact_witness :
    123 * 456 < M32 ∧ 789 < M32 ∧
      (Part001.multiplyNLFSR 123 456 = 123 * 456 ∧
        Part001.multiplyNLFSR 789 0 = 0 ∧ Part001.multiplyNLFSR 789 1 = 789) :=
  ⟨by decide, by decide, C1_multiplyNLFSR_exact 123 456 789 (by decide) (by decide)⟩

namespace Trapezoid

/-- Loop body of `multiplyNLFSR` in src/trapezoid.ino lines 131-145 (and
src/unnamed/part_001 lines 69-83 and 474-488): same shift-and-add loop as
`Part001.mulAddGo`, but accumulating with bitwise XOR
(`result ^= current`) instead of addition.  Fuel as in `Part001.mulAddGo`. -/
def mulXorGo : Nat → Nat → Nat → Nat → Nat
  | 0, result, _, _ => result
  | fuel + 1, result, current, multiplier =>
    if multiplier = 0 then result
    else
      mulXorGo fuel
        (if multiplier % 2 = 1 then result ^^^ current else result)
        (current * 2 % M32) (multiplier / 2)

/-- `multiplyNLFSR` of src/trapezoid.ino lines 131-145: the XOR-accumulating
shift-and-add multiplier (carry-less multiplication modulo `2^32`). -/
def multiplyNLFSR (value multiplier : Nat) : Nat :=
  mulXorGo multiplier 0 value multiplier

/-- `antiderivativeNLFSR` of src/trapezoid.ino lines 161-171: each
coefficient is first divided by its divisor with truncating integer
division (`a / 5`, `b / 4`, `c / 3`, `d / 2`), the powers of `x` are built
by nested XOR-multiplications, and the five terms are combined with
bitwise XOR. -/
def antiderivativeNLFSR (a b c d e x : Nat) : Nat :=
  multiplyNLFSR (a / 5)
      (multiplyNLFSR x (multiplyNLFSR x (multiplyNLFSR x (multiplyNLFSR x (multiplyNLFSR x 1))))) ^^^
    multiplyNLFSR (b / 4)
      (multiplyNLFSR x (multiplyNLFSR x (multiplyNLFSR x (multiplyNLFSR x 1)))) ^^^
    multiplyNLFSR (c / 3) (multiplyNLFSR x (multiplyNLFSR x (multiplyNLFSR x 1))) ^^^
    multiplyNLFSR (d / 2) (multiplyNLFSR x (multiplyNLFSR x 1)) ^^^
    multiplyNLFSR e x

/-- `symbolicIntegrationNLFSR` of src/trapezoid.ino lines 174-181:
`return F_x_end ^ F_x_start;` — XOR used in place of subtraction. -/
def symbolicIntegrationNLFSR (a b c d e xStart xEnd : Nat) : Nat :=
  antiderivativeNLFSR a b c d e xEnd ^^^ antiderivativeNLFSR a b c d e xStart

lemma mulXorGo_zero_mult (fuel result current : Nat) :
    mulXorGo fuel result current 0 = result := by
  cases fuel <;> simp [mulXorGo]

lemma mulXorGo_fuel_stable (fuel : Nat) :
    ∀ k result current multiplier : Nat, multiplier < 2 ^ fuel →
      mulXorGo (fuel + k) result current multiplier =
        mulXorGo fuel result current multiplier := by
  induction fuel with
  | zero =>
    intro k result current multiplier h
    have hm : multiplier = 0 := by simpa using h
    subst hm
    simp [mulXorGo_zero_mult]
  | succ fuel ih =>
    intro k result current multiplier h
    rw [show fuel + 1 + k = (fuel + k) + 1 by omega]
    by_cases hm : multiplier = 0
    · simp [mulXorGo, hm]
    · simp only [mulXorGo, hm, if_false]
      have hpow : 2 ^ (fuel + 1) = 2 * 2 ^ fuel := by ring
      exact ih k _ _ (multiplier / 2) (by omega)

end Trapezoid

namespace Part001

lemma mulAddGo_fuel_stable (fuel : Nat) :
    ∀ k result current multiplier : Nat, multiplier < 2 ^ fuel →
      mulAddGo (fuel + k) result current multiplier =
        mulAddGo fuel result current multiplier := by
  induction fuel with
  | zero =>
    intro k result current multiplier h
    have hm : multiplier = 0 := by simpa using h
    subst hm
    simp [mulAddGo_zero_mult]
  | succ fuel ih =>
    intro k result current multiplier h
    rw [show fuel + 1 + k = (fuel + k) + 1 by omega]
    by_cases hm : multiplier = 0
    · simp [mulAddGo, hm]
    · simp only [mulAddGo, hm, if_false]
      have hpow : 2 ^ (fuel + 1) = 2 * 2 ^ fuel := by ring
      exact ih k _ _ (multiplier / 2) (by omega)

end Part001

/-- C3: the XOR-combinator integration backend and the Add-combinator
integration backend disagree on a nontrivial input: on the fixture
`a..e = 1,2,3,4,5`, `x_start = 0`, `x_end = 10` the XOR backend yields 514
while the Add backend yields 26250. -/
theorem C3_xor_add_modes_diverge :
    Trapezoid.symbolicIntegrationNLFSR 1 2 3 4 5 0 10 ≠
      Part001.integratePolynomial 1 2 3 4 5 0 10 := by decide

/-- C5 counterexample: on the increasing fixture polynomial with
`x_start = 10 > x_end = 0`, `integratePolynomial` silently wraps modulo
`2^32` and returns `2^32 - 26250 = 4294941046`; no `Underflow` condition is
signalled anywhere (the function returns a plain `uint32_t`). -/
theorem C5_counterexample_silent_wrap :
    Part001.integratePolynomial 1 2 3 4 5 10 0 = 4294941046 := by decide

/-- C5 amended: when the antiderivative value at `x_end` is smaller than
the one at `x_start`, `integratePolynomial` returns the value wrapped
modulo `2^32`, i.e. `2^32 + F(x_end) - F(x_start)`; the code has no error
channel and never signals an `Underflow` condition. -/
theorem C5_integratePolynomial_wraps (a b c d e xStart xEnd : Nat)
    (h : Part001.evaluateAntiderivative a b c d e xEnd <
      Part001.evaluateAntiderivative a b c d e xStart) :
    Part001.integratePolynomial a b c d e xStart xEnd =
      M32 + Part001.evaluateAntiderivative a b c d e xEnd -
        Part001.evaluateAntiderivative a b c d e xStart := by
  have hFs := Part001.evaluateAntiderivative_lt a b c d e xStart
  unfold Part001.integratePolynomial
  have hlt : M32 + Part001.evaluateAntiderivative a b c d e xEnd -
      Part001.evaluateAntiderivative a b c d e xStart < M32 := by omega
  exact Nat.mod_eq_of_lt hlt

/-- Witness for C5 (amended) at the fixture with reversed bounds. -/
theorem C5_integratePolynomial_wraps_witness :
    Part001.evaluateAntiderivative 1 2 3 4 5 0 <
      Part001.evaluateAntiderivative 1 2 3 4 5 10 ∧
    Part001.integratePolynomial 1 2 3 4 5 10 0 =
      M32 + Part001.evaluateAntiderivative 1 2 3 4 5 0 -
        Part001.evaluateAntiderivative 1 2 3 4 5 10 :=
  ⟨by decide, C5_integratePolynomial_wraps 1 2 3 4 5 10 0 (by decide)⟩

/-- C6 counterexample: the term-scaling step implemented in the code, on
`(coefficient = 11, divisor = 5, power = 1)`, silently returns the
truncated quotient 2; no `PrecisionLoss` condition is signalled. -/
theorem C6_counterexample_silent_truncation :
    Part001.scaleExact 11 5 1 = 2 := by decide

/-- C6 amended: the scaling step returns the truncating quotient
`coefficient * power / divisor` whenever the product fits in 32 bits —
silently discarding any nonzero remainder — and in particular returns 2 on
`(10, 5, 1)` (exact) and also 2 on `(11, 5, 1)` (truncated). -/
theorem C6_scaleExact_truncates (coefficient divisor power : Nat)
    (h : coefficient * power < M32) :
    Part001.scaleExact coefficient divisor power =
      coefficient * power / divisor ∧ Part001.scaleExact 10 5 1 = 2 := by
  constructor
  · unfold Part001.scaleExact
    rw [Part001.multiplyNLFSR_eq coefficient power h]
  · decide

/-- Witness for C6 (amended) at `(coefficient, divisor, power) = (7, 3, 2)`. -/
theorem C6_scaleExact_truncates_witness :
    7 * 2 < M32 ∧
      (Part001.scaleExact 7 3 2 = 7 * 2 / 3 ∧ Part001.scaleExact 10 5 1 = 2) :=
  ⟨by decide, C6_scaleExact_truncates 7 3 2 (by decide)⟩

/-- C8: the shift-and-add multiplication loops halve the multiplier each
iteration, so for every pair of 32-bit unsigned inputs they terminate in
at most 32 iterations: running either loop body with fixed fuel 32
already computes the function's value (which is total by construction). -/
theorem C8_multiply_loops_terminate (value multiplier : Nat)
    (h : multiplier < 2 ^ 32) :
    Part001.mulAddGo 32 0 value multiplier =
        Part001.multiplyNLFSR value multiplier ∧
      Trapezoid.mulXorGo 32 0 value multiplier =
        Trapezoid.multiplyNLFSR value multiplier := by
  constructor
  · unfold Part001.multiplyNLFSR
    rcases Nat.le_total multiplier 32 with hle | hle
    · have hst := Part001.mulAddGo_fuel_stable multiplier (32 - multiplier)
        0 value multiplier (Nat.lt_two_pow multiplier)
      rw [show multiplier + (32 - multiplier) = 32 by omega] at hst
      rw [hst]
    · have hst := Part001.mulAddGo_fuel_stable 32 (multiplier - 32)
        0 value multiplier h
      rw [show 32 + (multiplier - 32) = multiplier by omega] at hst
      rw [hst]
  · unfold Trapezoid.multiplyNLFSR
    rcases Nat.le_total multiplier 32 with hle | hle
    · have hst := Trapezoid.mulXorGo_fuel_stable multiplier (32 - multiplier)
        0 value multiplier (Nat.lt_two_pow multiplier)
      rw [show multiplier + (32 - multiplier) = 32 by omega] at hst
      rw [hst]
    · have hst := Trapezoid.mulXorGo_fuel_stable 32 (multiplier - 32)
        0 value multiplier h
      rw [show 32 + (multiplier - 32) = multiplier by omega] at hst
      rw [hst]

/-- Witness for C8 at `value = 7`, `multiplier = 100000`. -/
theorem C8_multiply_loops_terminate_witness :
    100000 < 2 ^ 32 ∧
      (Part001.mulAddGo 32 0 7 100000 = Part001.multiplyNLFSR 7 100000 ∧
        Trapezoid.mulXorGo 32 0 7 100000 = Trapezoid.multiplyNLFSR 7 100000) :=
  ⟨by decide, C8_multiply_loops_terminate 7 100000 (by decide)⟩

/-- C10: integrating over the empty interval `[x, x]` yields 0 in both
integer combine modes: the XOR backend returns `F(x) ^^^ F(x) = 0` and the
Add backend returns `F(x) - F(x) = 0` (unsigned subtraction of equal
values), for every choice of coefficients and every `x`. -/
theorem C10_empty_interval_zero (a b c d e x : Nat) :
    Trapezoid.symbolicIntegrationNLFSR a b c d e x x = 0 ∧
      Part001.integratePolynomial a b c d e x x = 0 := by
  constructor
  · exact Nat.xor_self _
  · unfold Part001.integratePolynomial
    rw [Nat.add_sub_cancel]
    exact Nat.mod_self M32

/-- Right-to-left iterated product modelling the `pow(x, k)` calls of the
floating-point sketches, in exact rational arithmetic. -/
def powQ (x : ℚ) : Nat → ℚ
  | 0 => 1
  | k + 1 => powQ x k * x

namespace Symbolic

/-- `polynomialAntiderivative` of src/symbolic_derivative.ino lines 36-43:
`F(x) = (a/5)*pow(x,5) + (b/4)*pow(x,4) + (c/3)*pow(x,3) + (d/2)*pow(x,2) + e*x`,
modelled in exact rational arithmetic. -/
def polynomialAntiderivative (a b c d e x : ℚ) : ℚ :=
  a / 5 * powQ x 5 + b / 4 * powQ x 4 + c / 3 * powQ x 3 + d / 2 * powQ x 2 + e * x

/-- `symbolicIntegration` of src/symbolic_derivative.ino lines 46-53:
`F(x_end) - F(x_start)`. -/
def symbolicIntegration (a b c d e xStart xEnd : ℚ) : ℚ :=
  polynomialAntiderivative a b c d e xEnd - polynomialAntiderivative a b c d e xStart

end Symbolic

namespace Part000

/-- `antiderivativeNLFSR` of src/unnamed/part_000 lines 42-53 (the same
function appears in src/unnamed/part_002 lines 58-69): despite the NLFSR
label it computes, over `double`,
`(a/5.0)*pow(x,5) + (b/4.0)*pow(x,4) + (c/3.0)*pow(x,3) + (d/2.0)*pow(x,2) + e*x`,
modelled in exact rational arithmetic. -/
def antiderivativeNLFSR (a b c d e x : ℚ) : ℚ :=
  a / 5 * powQ x 5 + b / 4 * powQ x 4 + c / 3 * powQ x 3 + d / 2 * powQ x 2 + e * x

end Part000

namespace Trapezoid

/-- `polynomial` of src/trapezoid.ino lines 37-39:
`f(x) = a*pow(x,4) + b*pow(x,3) + c*pow(x,2) + d*x + e`, in exact rational
arithmetic. -/
def polynomial (a b c d e x : ℚ) : ℚ :=
  a * powQ x 4 + b * powQ x 3 + c * powQ x 2 + d * x + e

/-- The accumulation loop of `trapezoidalIntegration`
(src/trapezoid.ino lines 51-54): `midSum ... k` is the sum of
`f(x_start + i*h)` for `i = 1 .. k`, added in loop order. -/
def midSum (a b c d e xStart h : ℚ) : Nat → ℚ
  | 0 => 0
  | k + 1 => midSum a b c d e xStart h k +
      polynomial a b c d e (xStart + ((k + 1 : Nat) : ℚ) * h)

/-- `trapezoidalIntegration` of src/trapezoid.ino lines 42-60:
`h = (x_end - x_start) / num_intervals`; accumulate
`f(x_start)/2 + f(x_end)/2 + Σ_{i=1}^{n-1} f(x_start + i*h)`, then multiply
by `h`.  Modelled in exact rational arithmetic. -/
def trapezoidalIntegration (a b c d e xStart xEnd : ℚ) (n : Nat) : ℚ :=
  (polynomial a b c d e xStart / 2 + polynomial a b c d e xEnd / 2 +
      midSum a b c d e xStart ((xEnd - xStart) / (n : ℚ)) (n - 1)) *
    ((xEnd - xStart) / (n : ℚ))

/-- The trapezoidal-rule formula exactly as the specification words it
(spec §4.5): partition into `n` subintervals of width `h`, sum
`f(x_start)/2 + f(x_end)/2 + Σ f(x_start + i·h)` for `i` in `1..n-1`,
multiply by `h`.  Stated with a `Finset` sum, to be compared with the
loop-based `trapezoidalIntegration` translated from the source. -/
def trapezoidSpecFormula (a b c d e xStart xEnd : ℚ) (n : Nat) : ℚ :=
  ((xEnd - xStart) / (n : ℚ)) *
    (polynomial a b c d e xStart / 2 + polynomial a b c d e xEnd / 2 +
      ∑ i in Finset.Icc 1 (n - 1),
        polynomial a b c d e (xStart + (i : ℚ) * ((xEnd - xStart) / (n : ℚ))))

lemma midSum_eq_sum (a b c d e xStart h : ℚ) (k : Nat) :
    midSum a b c d e xStart h k =
      ∑ i in Finset.Icc 1 k, polynomial a b c d e (xStart + (i : ℚ) * h) := by
  induction k with
  | zero => simp [midSum]
  | succ k ih =>
    rw [Finset.sum_Icc_succ_top (by omega : 1 ≤ k + 1)]
    simp only [midSum, ih]

end Trapezoid

/-- C7: for every `n ≥ 1` the trapezoidal backend computes exactly
`h * (f(x_start)/2 + f(x_end)/2 + Σ_{i=1}^{n-1} f(x_start + i*h))` with
`h = (x_end - x_start)/n`, where `f` is the degree-4 polynomial. -/
theorem C7_trapezoid_matches_formula (a b c d e xStart xEnd : ℚ) (n : Nat)
    (_hn : 1 ≤ n) :
    Trapezoid.trapezoidalIntegration a b c d e xStart xEnd n =
      Trapezoid.trapezoidSpecFormula a b c d e xStart xEnd n := by
  unfold Trapezoid.trapezoidalIntegration Trapezoid.trapezoidSpecFormula
  rw [Trapezoid.midSum_eq_sum]
  ring

/-- Witness for C7 at the fixture coefficients, `[0, 2]`, `n = 2`. -/
theorem C7_trapezoid_matches_formula_witness :
    1 ≤ 2 ∧
      Trapezoid.trapezoidalIntegration 1 2 3 4 5 0 2 2 =
        Trapezoid.trapezoidSpecFormula 1 2 3 4 5 0 2 2 :=
  ⟨by norm_num, C7_trapezoid_matches_formula 1 2 3 4 5 0 2 2 (by norm_num)⟩

/-- C9: the floating-point antiderivative evaluator labelled as NLFSR-based
(src/unnamed/part_000 and part_002) and the plain symbolic antiderivative
(src/symbolic_derivative.ino) compute the same function
`(a/5)x^5 + (b/4)x^4 + (c/3)x^3 + (d/2)x^2 + e*x`: the two drafts are
extensionally equal. -/
theorem C9_antiderivative_drafts_equal (a b c d e x : ℚ) :
    Part000.antiderivativeNLFSR a b c d e x =
      Symbolic.polynomialAntiderivative a b c d e x := rfl

lemma powQ_eq_pow (x : ℚ) (k : Nat) : powQ x k = x ^ k := by
  induction k with
  | zero => simp [powQ]
  | succ k ih => rw [powQ, ih, pow_succ]

lemma powSumQ1 (n : Nat) :
    ∑ i in Finset.Icc 1 n, (i : ℚ) = n * (n + 1) / 2 := by
  induction n with
  | zero => simp
  | succ n ih =>
    rw [Finset.sum_Icc_succ_top (by omega), ih]
    push_cast
    ring

lemma powSumQ2 (n : Nat) :
    ∑ i in Finset.Icc 1 n, (i : ℚ) ^ 2 = n * (n + 1) * (2 * n + 1) / 6 := by
  induction n with
  | zero => simp
  | succ n ih =>
    rw [Finset.sum_Icc_succ_top (by omega), ih]
    push_cast
    ring

lemma powSumQ3 (n : Nat) :
    ∑ i in Finset.Icc 1 n, (i : ℚ) ^ 3 = n ^ 2 * (n + 1) ^ 2 / 4 := by
  induction n with
  | zero => simp
  | succ n ih =>
    rw [Finset.sum_Icc_succ_top (by omega), ih]
    push_cast
    ring

lemma powSumQ4 (n : Nat) :
    ∑ i in Finset.Icc 1 n, (i : ℚ) ^ 4 =
      n * (n + 1) * (2 * n + 1) * (3 * n ^ 2 + 3 * n - 1) / 30 := by
  induction n with
  | zero => simp
  | succ n ih =>
    rw [Finset.sum_Icc_succ_top (by omega), ih]
    push_cast
    ring

/-- The exact value of the trapezoidal backend on the fixture
`a..e = 1,2,3,4,5`, `[0, 10]`, `n = 1000`: the composite trapezoidal rule
overshoots the true integral 26250 by exactly `3883333 / 10^8 ≈ 0.0388`. -/
lemma trap_fixture_value :
    Trapezoid.trapezoidalIntegration 1 2 3 4 5 0 10 1000 =
      26250 + 3883333 / 100000000 := by
  have hterm : ∀ i ∈ Finset.Icc (1 : ℕ) 999,
      Trapezoid.polynomial 1 2 3 4 5 (0 + (i : ℚ) * (1 / 100)) =
        (i : ℚ) ^ 4 * (1 / 100000000) + (i : ℚ) ^ 3 * (1 / 500000) +
          (i : ℚ) ^ 2 * (3 / 10000) + (i : ℚ) * (1 / 25) + 5 := by
    intro i _
    simp only [Trapezoid.polynomial, powQ_eq_pow]
    ring
  have h100 : ((10 : ℚ) - 0) / ((1000 : ℕ) : ℚ) = 1 / 100 := by norm_num
  have hf0 : Trapezoid.polynomial 1 2 3 4 5 0 = 5 := by
    simp only [Trapezoid.polynomial, powQ_eq_pow]
    norm_num
  have hf10 : Trapezoid.polynomial 1 2 3 4 5 10 = 12345 := by
    simp only [Trapezoid.polynomial, powQ_eq_pow]
    norm_num
  unfold Trapezoid.trapezoidalIntegration
  rw [h100, hf0, hf10, show (1000 - 1 : ℕ) = 999 from rfl,
    Trapezoid.midSum_eq_sum, Finset.sum_congr rfl hterm]
  simp only [Finset.sum_add_distrib, ← Finset.sum_mul, Finset.sum_const,
    Nat.card_Icc, nsmul_eq_mul]
  rw [powSumQ1 999, powSumQ2 999, powSumQ3 999, powSumQ4 999]
  push_cast
  norm_num

/-- C2 counterexample: the trapezoidal backend with its default interval
count (`num_intervals = 1000`) does not come within `1e-6` of `26250` on
the fixture — even in exact arithmetic its value is `26250 + 3883333/10^8`,
off by about `0.0388` (the composite trapezoidal rule's `O(h^2)` error,
orders of magnitude larger than both `1e-6` and any `double` rounding). -/
theorem C2_counterexample_trapezoid_not_within_tolerance :
    ¬ |Trapezoid.trapezoidalIntegration 1 2 3 4 5 0 10 1000 - 26250| ≤
        1 / 1000000 := by
  rw [trap_fixture_value,
    show (26250 : ℚ) + 3883333 / 100000000 - 26250 = 3883333 / 100000000 by ring,
    abs_of_nonneg (by norm_num)]
  norm_num

/-- C2 amended: on the fixture `a..e = 1,2,3,4,5`, `x_start = 0`,
`x_end = 10`, the exact-antiderivative backend returns exactly 26250 and
the add-mode integer backend returns the integer 26250, but the
trapezoidal backend with its default `n = 1000` returns
`26250 + 3883333/10^8` — within `0.04` of 26250, not within `1e-6`. -/
theorem C2_backends_on_fixture :
    Symbolic.symbolicIntegration 1 2 3 4 5 0 10 = 26250 ∧
      Part001.integratePolynomial 1 2 3 4 5 0 10 = 26250 ∧
      Trapezoid.trapezoidalIntegration 1 2 3 4 5 0 10 1000 =
        26250 + 3883333 / 100000000 := by
  refine ⟨?_, by decide, trap_fixture_value⟩
  simp only [Symbolic.symbolicIntegration, Symbolic.polynomialAntiderivative,
    powQ_eq_pow]
  norm_num
